/-
Verification of the SimpleNER pipeline component
(`spacy/pipeline/simple_ner.py`): the BILOU label registry, the tag-name
action ordering, label discovery, the training-time label step, the loss
aggregation, score-to-annotation decoding, and the encode/decode round trip
for BILOU tag sequences.

Conventions of the embedding:
 * Python lists become `List`, `None`-able attributes become `Option`,
   and a Python call that raises an exception is embedded as
   `Except.error` carrying the exception's name.
 * Score values are embedded as `ℚ` where only comparisons matter
   (argmax) and as `ℝ` where the loss arithmetic matters.
 * Numpy arrays are embedded as the nested type `NDArr`; numpy indexing
   with a tuple of subscripts is `NDArr.index`, which fails (IndexError)
   when there are more subscripts than axes.
-/
import Mathlib

/-! ## Label registry -/

/-- `SimpleNER.add_label` (simple_ner.py lines 26-31): the registry lives in
`model.get_ref("biluo").attrs["labels"]`, which is `None` before
initialization.  `add_label` replaces `None` by the one-element list, appends
the label when it is absent, and otherwise leaves the list unchanged. -/
def add_label (st : Option (List String)) (label : String) : Option (List String) :=
  match st with
  | none => some [label]
  | some ls => if label ∈ ls then some ls else some (ls ++ [label])

/-! ## Tag names and the action ordering -/

/-- `SimpleNER.get_tag_names` (lines 33-40): all `B-` tags in label order,
then all `I-` tags, all `L-` tags, all `U-` tags, and finally `"O"`. -/
def get_tag_names (labels : List String) : List String :=
  (labels.map fun label => "B-" ++ label) ++
  (labels.map fun label => "I-" ++ label) ++
  (labels.map fun label => "L-" ++ label) ++
  (labels.map fun label => "U-" ++ label) ++
  ["O"]

/-! ## Python string sorting

Python's `sorted` compares strings lexicographically by code point.  The
builtin order on Lean's `String` is the same order, but it is implemented
with iterator recursion that the kernel cannot evaluate, so the embedding
uses its own code-point comparison over `Char` lists. -/

/-- Lexicographic comparison of code-point sequences: the order Python uses
to compare two `str` values. -/
def lexLe : List Char → List Char → Bool
  | [], _ => true
  | _ :: _, [] => false
  | a :: as, b :: bs => if a < b then true else if b < a then false else lexLe as bs

/-- Python's `str` comparison `a <= b`. -/
def strLe (a b : String) : Bool := lexLe a.toList b.toList

instance strLeDecidable : DecidableRel (fun a b : String => strLe a b = true) :=
  fun a b => inferInstanceAs (Decidable (strLe a b = true))

/-- Python's `sorted` on a list of strings. -/
def pySorted (l : List String) : List String :=
  List.insertionSort (fun a b : String => strLe a b = true) l

/-! ## `_set_labels` and the training-time label step -/

/-- `_set_labels` (lines 116-122): walking the model finds the single
`"biluo"` node, whose `attrs["labels"]` slot is the registry; the slot is
written (with `list(sorted(labels))`) only when it is still `None`, and the
returned action count is `len(labels) * 4 + 1`, computed from the *argument*,
not from the stored registry. -/
def _set_labels (st : Option (List String)) (labels : List String) :
    Option (List String) × Nat :=
  (match st with
   | none => some (pySorted labels)
   | some ls => some ls,
   labels.length * 4 + 1)

/-! ## `_get_labels`: label discovery -/

/-- The tags `_get_labels` (lines 125-132) looks at: every entry of every
example's `token_annotation.entities` other than `"O"` and `"-"`. -/
def relevantTags (corpus : List (List String)) : List String :=
  corpus.flatten.filter fun t => t != "O" && t != "-"

/-- Everything after the first `'-'`, i.e. the second component of Python's
`ner_tag.split('-', 1)`. -/
def dropThroughDash : List Char → List Char
  | [] => []
  | c :: cs => if c = '-' then cs else dropThroughDash cs

/-- The label part of a BILOU tag string: `"B-PER-X"` gives `"PER-X"`. -/
def afterFirstDash (t : String) : String := String.mk (dropThroughDash t.toList)

/-- Whether `ner_tag.split('-', 1)` yields two parts, so that the unpacking
`_, label = ner_tag.split('-', 1)` succeeds. -/
def hasDash (t : String) : Bool := t.toList.contains '-'

/-- The (multi-)collection of labels the discovery scan extracts from a
corpus, in scan order. -/
def labelsOf (corpus : List (List String)) : List String :=
  (relevantTags corpus).map afterFirstDash

/-- `_get_labels` (lines 125-132): each relevant tag is split on its first
dash and the label part is added to a Python `set`; the function returns
`list(sorted(labels))`.  A relevant tag without a dash makes the two-name
unpacking raise `ValueError`.  A Python set holds exactly the distinct
elements added to it, and `sorted` puts them in code-point order, so the
embedding is deduplication followed by `pySorted`. -/
def _get_labels (corpus : List (List String)) : Except String (List String) :=
  if (relevantTags corpus).all hasDash then
    .ok (pySorted (labelsOf corpus).dedup)
  else
    .error "ValueError: not enough values to unpack"

/-- The label-registry step of `SimpleNER.begin_training` (lines 80-98):
`n_actions = _set_labels(self.model, _get_labels(get_examples()))`.
`begin_training` never calls `add_label`; discovery feeds `_set_labels`
directly. -/
def begin_training_labels (st : Option (List String)) (corpus : List (List String)) :
    Except String (Option (List String) × Nat) :=
  match _get_labels corpus with
  | .error e => .error e
  | .ok labels => .ok (_set_labels st labels)

/-! ## Numpy arrays, argmax and `set_annotations` -/

/-- A numpy array of integers: either a scalar or a list of sub-arrays. -/
inductive NDArr where
  | scalar (value : Nat)
  | arr (items : List NDArr)

/-- Numpy subscript semantics: `a.index [i, j]` is `a[i, j]`.  Indexing a
scalar (an array with no axes left) with a further subscript is the numpy
`IndexError: too many indices for array`; an out-of-range subscript is also
an IndexError.  Failure is `none`. -/
def NDArr.index : NDArr → List Nat → Option NDArr
  | a, [] => some a
  | .scalar _, _ :: _ => none
  | .arr items, i :: rest =>
    match items[i]? with
    | some a => NDArr.index a rest
    | none => none

/-- First position holding the running maximum; `numpy.argmax` keeps the
earliest position on ties, so a later element wins only when strictly
greater. -/
def argmaxAux : List ℚ → Nat → Nat → ℚ → Nat
  | [], _, best, _ => best
  | x :: xs, i, best, bv =>
    if bv < x then argmaxAux xs (i + 1) i x else argmaxAux xs (i + 1) best bv

/-- `numpy.argmax` of one score row (index of the maximum, lowest index on
ties). -/
def argmaxRow (row : List ℚ) : Nat :=
  match row with
  | [] => 0
  | x :: xs => argmaxAux xs 1 0 x

/-- The body of `SimpleNER.set_annotations` for document number `i` of
length `docLen` (lines 48-51):

  actions = scores[i].argmax(axis=1)
  tags = [tag_names[actions[j, i]] for j in range(len(doc))]
  doc.ents = spans_from_biluo_tags(doc, tags)

`scores[i].argmax(axis=1)` is a 1-dimensional array with one entry per
token; the comprehension then subscripts it as `actions[j, i]` with *two*
indices, which numpy rejects with IndexError.  The final line calls
`spans_from_biluo_tags`, a name the module neither defines nor imports, so
even a zero-token document (empty comprehension) raises NameError. -/
def set_annotations_doc (tag_names : List String) (scores : List (List (List ℚ)))
    (i docLen : Nat) : Except String (List String) :=
  match scores[i]? with
  | none => .error "IndexError: list index out of range"
  | some m =>
    let actions : NDArr := .arr (m.map fun row => NDArr.scalar (argmaxRow row))
    match (List.range docLen).mapM (fun j =>
      match actions.index [j, i] with
      | some (.scalar a) =>
        match tag_names[a]? with
        | some t => Except.ok t
        | none => Except.error "IndexError: list index out of range"
      | _ => Except.error "IndexError: too many indices for array") with
    | .error e => .error e
    | .ok _tags => .error "NameError: name spans_from_biluo_tags is not defined"

/-- `SimpleNER.set_annotations` (lines 46-52) over a batch: documents are
just their token counts, and the per-document body runs for each `(i, doc)`
of `enumerate(docs)`. -/
def set_annotations (labels : List String) (docs : List Nat)
    (scores : List (List (List ℚ))) : Except String (List (List String)) :=
  docs.enum.mapM fun p => set_annotations_doc (get_tag_names labels) scores p.1 p.2

/-! ## `_get_sample` -/

/-- `_get_sample` (lines 104-113): the inner loop is
`for doc, gold in parses:` but no name `parses` is bound anywhere in the
module, so the first iteration of the outer loop raises NameError.  Only an
empty `examples` avoids the loop body and returns the two empty lists.
(Even with the intended iterable, the `break` leaves only the inner loop,
so the `limit` would not cap the sample across examples.) -/
def _get_sample (examples : List Nat) :
    Except String (List Nat × List (List (List ℚ))) :=
  match examples with
  | [] => .ok ([], [])
  | _ :: _ => .error "NameError: name parses is not defined"

/-! ## Loss

`SimpleNER.get_loss` (lines 70-78) builds
`loss_func = CategoricalCrossentropy(names=self.get_tag_names())` and runs

  loss = 0
  d_scores = []
  for eg, doc_scores in zip(examples, scores):
      d_doc_scores, doc_loss = loss_func(doc_scores, eg.gold.ner)
      d_scores.append(d_doc_scores)
      loss += doc_loss
  return loss, d_scores

The per-document loss function comes from the thinc library, which is not
part of this repository's sources; it is modelled from the spec below.  The
aggregation loop itself is repository code and is embedded exactly, for an
arbitrary per-document loss function. -/

/-- One-hot target row: 1 at the gold action index, 0 elsewhere. -/
def onehot (k j : Nat) : ℝ := if j = k then 1 else 0

/-- Softmax normalization of one score row. -/
noncomputable def softmaxRow (row : List ℝ) : List ℝ :=
  row.map fun x => Real.exp x / (row.map Real.exp).sum

/-- Modelled from the spec: the per-token gradient of thinc's
`CategoricalCrossentropy` (spec section 4.4), entry `j` being
`predicted_probability(j) - target_one_hot(j)` for gold action `k`. -/
noncomputable def ceGradRow (row : List ℝ) (k : Nat) : List ℝ :=
  (softmaxRow row).mapIdx fun j p => p - onehot k j

/-- Modelled from the spec: the per-token categorical cross-entropy between
the softmax-normalized scores and the one-hot target at gold action `k`. -/
noncomputable def ceTokenLoss (row : List ℝ) (k : Nat) : ℝ :=
  -Real.log ((softmaxRow row).getD k 0)

/-- Modelled from the spec: thinc's `CategoricalCrossentropy` applied to one
document (spec section 4.4) — the call returns the gradient matrix and the
scalar loss, the loss being the per-token cross-entropy summed over tokens.
Gold tags are given by their action indices, one per token. -/
noncomputable def CategoricalCrossentropy (scores : List (List ℝ)) (gold : List Nat) :
    List (List ℝ) × ℝ :=
  ((scores.zip gold).map fun q => ceGradRow q.1 q.2,
   ((scores.zip gold).map fun q => ceTokenLoss q.1 q.2).sum)

/-- `SimpleNER.get_loss` (lines 70-78), parametrized by the per-document
loss function: iterate `zip(examples, scores)`, accumulate the scalar losses
starting from `0`, and append each gradient matrix in order. -/
def get_loss (lossFn : List (List ℝ) → List Nat → List (List ℝ) × ℝ)
    (examples : List (List Nat)) (scores : List (List (List ℝ))) :
    ℝ × List (List (List ℝ)) :=
  (examples.zip scores).foldl
    (fun acc p =>
      let r := lossFn p.2 p.1
      (acc.1 + r.2, acc.2 ++ [r.1]))
    (0, [])

/-- `get_loss` with the modelled thinc loss plugged in. -/
noncomputable def get_loss_ce (examples : List (List Nat))
    (scores : List (List (List ℝ))) : ℝ × List (List (List ℝ)) :=
  get_loss CategoricalCrossentropy examples scores

/-! ## BILOU encode / decode

`set_annotations` ends in `spans_from_biluo_tags`, and gold tags come from
the BILOU encoder in `spacy/gold`; neither is among this repository's
sources here, so both directions are modelled from the spec (section 4.2). -/

/-- An entity span: start token, exclusive end token, label. -/
structure Span where
  first : Nat
  stop : Nat
  label : String
deriving DecidableEq

/-- Two spans occupy disjoint token ranges. -/
def spanDisjoint (a b : Span) : Prop := a.stop ≤ b.first ∨ b.stop ≤ a.first

instance spanDisjointDecidable : DecidableRel spanDisjoint :=
  fun a b => inferInstanceAs (Decidable (a.stop ≤ b.first ∨ b.stop ≤ a.first))

/-- A BILOU tag: Begin, Inside, Last, Unit (each with a label) or Outside. -/
inductive BiluoTag where
  | B (label : String)
  | I (label : String)
  | L (label : String)
  | U (label : String)
  | O
deriving DecidableEq

/-- Modelled from the spec: the tags one span contributes — `U-label` for a
one-token span, otherwise `B-label`, then `I-label` for the interior tokens,
then `L-label`. -/
def spanTags (s : Span) : List BiluoTag :=
  if s.stop = s.first + 1 then [.U s.label]
  else .B s.label :: (List.replicate (s.stop - s.first - 2) (.I s.label) ++ [.L s.label])

/-- Modelled from the spec: emit the tag sequence from position `pos` to the
document end `n` for a start-sorted span list — `O` for every uncovered
token, each span's own tags in place. -/
def encodeFrom (pos n : Nat) : List Span → List BiluoTag
  | [] => List.replicate (n - pos) .O
  | s :: rest => List.replicate (s.first - pos) .O ++ spanTags s ++ encodeFrom s.stop n rest

/-- Spans sorted by start position. -/
def sortSpans (spans : List Span) : List Span :=
  List.insertionSort (fun a b : Span => a.first ≤ b.first) spans

/-- Modelled from the spec: `encode(document, spans)` for a document of `n`
tokens — fails when some span is degenerate, out of range or has a label
outside the registry, or when two spans overlap; otherwise produces one
BILOU tag per token. -/
def encode (n : Nat) (registry : List String) (spans : List Span) :
    Option (List BiluoTag) :=
  if (∀ s ∈ spans, s.first < s.stop ∧ s.stop ≤ n ∧ s.label ∈ registry)
      ∧ spans.Pairwise spanDisjoint then
    some (encodeFrom 0 n (sortSpans spans))
  else none

/-- Modelled from the spec: the decode scan.  `opn` is the currently open
span (start position and label).  `O` discards any open span; `U` discards
and emits a one-token span; `B` discards and opens; `I` continues the open
span only on a label match, discarding otherwise; `L` closes and emits on a
label match, discarding otherwise; a span still open at the end is
discarded. -/
def decodeLoop (pos : Nat) (opn : Option (Nat × String)) : List BiluoTag → List Span
  | [] => []
  | .O :: rest => decodeLoop (pos + 1) none rest
  | .U l :: rest => ⟨pos, pos + 1, l⟩ :: decodeLoop (pos + 1) none rest
  | .B l :: rest => decodeLoop (pos + 1) (some (pos, l)) rest
  | .I l :: rest =>
    match opn with
    | some (st, l₀) =>
      if l₀ = l then decodeLoop (pos + 1) (some (st, l₀)) rest
      else decodeLoop (pos + 1) none rest
    | none => decodeLoop (pos + 1) none rest
  | .L l :: rest =>
    match opn with
    | some (st, l₀) =>
      if l₀ = l then ⟨st, pos + 1, l⟩ :: decodeLoop (pos + 1) none rest
      else decodeLoop (pos + 1) none rest
    | none => decodeLoop (pos + 1) none rest

/-- Modelled from the spec: `decode(document, tags)` — scan from position 0
with no open span. -/
def decode (tags : List BiluoTag) : List Span := decodeLoop 0 none tags

/-- A span list is a chain from position `pos`: starts are in order, spans
do not touch, and every span is non-degenerate. -/
def ChainOK : Nat → List Span → Prop
  | _, [] => True
  | pos, s :: rest => pos ≤ s.first ∧ s.first < s.stop ∧ ChainOK s.stop rest

/-! ## Helper lemmas: the code-point order is a linear order -/

/-- Head characterization of the lexicographic comparison. -/
theorem lexLe_cons (x y : Char) (xs ys : List Char) :
    lexLe (x :: xs) (y :: ys) = true ↔ (x < y ∨ (x = y ∧ lexLe xs ys = true)) := by
  simp only [lexLe]
  rcases lt_trichotomy x y with h | h | h
  · simp [h]
  · subst h; simp [lt_irrefl]
  · rw [if_neg (lt_asymm h), if_pos h]
    simp [lt_asymm h, ne_of_gt h]

/-- Totality of the code-point order. -/
theorem lexLe_total (a : List Char) : ∀ b, lexLe a b = true ∨ lexLe b a = true := by
  induction a with
  | nil => intro b; left; rfl
  | cons x xs ih =>
    intro b
    cases b with
    | nil => right; rfl
    | cons y ys =>
      rcases lt_trichotomy x y with h | h | h
      · left; rw [lexLe_cons]; exact Or.inl h
      · subst h
        rcases ih ys with h2 | h2
        · left; rw [lexLe_cons]; exact Or.inr ⟨rfl, h2⟩
        · right; rw [lexLe_cons]; exact Or.inr ⟨rfl, h2⟩
      · right; rw [lexLe_cons]; exact Or.inl h

/-- Transitivity of the code-point order. -/
theorem lexLe_trans (a : List Char) :
    ∀ b c, lexLe a b = true → lexLe b c = true → lexLe a c = true := by
  induction a with
  | nil => intro b c _ _; rfl
  | cons x xs ih =>
    intro b c h1 h2
    cases b with
    | nil => simp [lexLe] at h1
    | cons y ys =>
      cases c with
      | nil => simp [lexLe] at h2
      | cons z zs =>
        rw [lexLe_cons] at h1 h2 ⊢
        rcases h1 with h1 | ⟨rfl, h1⟩
        · rcases h2 with h2 | ⟨rfl, h2⟩
          · exact Or.inl (lt_trans h1 h2)
          · exact Or.inl h1
        · rcases h2 with h2 | ⟨rfl, h2⟩
          · exact Or.inl h2
          · exact Or.inr ⟨rfl, ih ys zs h1 h2⟩

/-- Antisymmetry of the code-point order. -/
theorem lexLe_antisymm (a : List Char) :
    ∀ b, lexLe a b = true → lexLe b a = true → a = b := by
  induction a with
  | nil =>
    intro b h1 h2
    cases b with
    | nil => rfl
    | cons y ys => simp [lexLe] at h2
  | cons x xs ih =>
    intro b h1 h2
    cases b with
    | nil => simp [lexLe] at h1
    | cons y ys =>
      rw [lexLe_cons] at h1 h2
      rcases h1 with h1 | ⟨rfl, h1⟩
      · rcases h2 with h2 | ⟨rfl, h2⟩
        · exact absurd h2 (lt_asymm h1)
        · exact absurd h1 (lt_irrefl _)
      · rcases h2 with h2 | ⟨h2e, h2⟩
        · exact absurd h2 (lt_irrefl _)
        · rw [ih ys h1 h2]

/-- `strLe` is total. -/
theorem strLe_total (a b : String) : strLe a b = true ∨ strLe b a = true :=
  lexLe_total a.toList b.toList

/-- `strLe` is transitive. -/
theorem strLe_trans (a b c : String) (h1 : strLe a b = true) (h2 : strLe b c = true) :
    strLe a c = true :=
  lexLe_trans a.toList b.toList c.toList h1 h2

/-- `strLe` is antisymmetric. -/
theorem strLe_antisymm (a b : String) (h1 : strLe a b = true) (h2 : strLe b a = true) :
    a = b := by
  have h := lexLe_antisymm a.toList b.toList h1 h2
  cases a with
  | mk da =>
    cases b with
    | mk db => exact congrArg String.mk h

/-! ## Claims about the label registry -/

/-- Claim C4: `add_label` is idempotent — a second `add_label x` changes
nothing — and it appends `x` at the end iff `x` is absent, is a no-op
otherwise, and the previous registry list always stays a prefix, so every
previously registered label keeps its position (hence its action indices). -/
theorem add_label_idempotent_additive (r : Option (List String)) (ls : List String)
    (x : String) :
    add_label (add_label r x) x = add_label r x
    ∧ add_label (some ls) x = some (if x ∈ ls then ls else ls ++ [x])
    ∧ ls <+: (if x ∈ ls then ls else ls ++ [x]) := by
  refine ⟨?_, ?_, ?_⟩
  · cases r with
    | none => simp [add_label]
    | some ls₀ =>
      by_cases h : x ∈ ls₀
      · simp [add_label, h]
      · simp [add_label, h]
  · by_cases h : x ∈ ls <;> simp [add_label, h]
  · by_cases h : x ∈ ls
    · simp [h]
    · simp [h, List.prefix_append]

/-- Claim C10: on the uninitialized (`None`) registry, `add_label x` produces
the one-element list `[x]`, and after any `add_label` call the registry is a
non-empty list. -/
theorem add_label_none_singleton (x : String) (r : Option (List String)) :
    add_label none x = some [x]
    ∧ ∃ ls, add_label r x = some ls ∧ ls ≠ [] := by
  refine ⟨rfl, ?_⟩
  cases r with
  | none => exact ⟨[x], rfl, by simp⟩
  | some ls =>
    by_cases h : x ∈ ls
    · refine ⟨ls, by simp [add_label, h], ?_⟩
      rintro rfl
      simp at h
    · exact ⟨ls ++ [x], by simp [add_label, h], by simp⟩

/-- Claim C9, counterexample: with the registry already set to `["A"]` and a
corpus whose discovery yields `["A", "B"]`, the label step of
`begin_training` leaves the registry at `["A"]` — the newly discovered
label `"B"` is dropped, whereas additive re-discovery via `add_label`
would give `["A", "B"]`.  So discovery is *not* re-run additively via
`add_label`. -/
theorem begin_training_ignores_new_labels :
    begin_training_labels (some ["A"]) [["U-A", "U-B"]] = .ok (some ["A"], 9)
    ∧ add_label (some ["A"]) "B" = some ["A", "B"]
    ∧ (some ["A"] : Option (List String)) ≠ some ["A", "B"] := by
  refine ⟨rfl, rfl, by simp⟩

/-- Claim C9, amended: on a re-entrant `begin_training` with the label slot
already set, `_set_labels` leaves the stored registry unchanged (so the
action indices of previously registered labels are preserved), while the
returned action count is computed from the freshly discovered labels. -/
theorem set_labels_preserves_existing (ls labels : List String) :
    (_set_labels (some ls) labels).1 = some ls
    ∧ (_set_labels (some ls) labels).2 = 4 * labels.length + 1 := by
  refine ⟨rfl, ?_⟩
  simp [_set_labels]
  ring

/-- Claim C7: `_get_sample` never returns a sample — its loop body iterates
over the unbound name `parses`, so every non-empty `examples` raises
`NameError` (here: the error value), instead of producing up to 10
zero-initialized matrices. -/
theorem get_sample_raises :
    _get_sample [3] = .error "NameError: name parses is not defined"
    ∧ ∀ out, _get_sample [3] ≠ .ok out := by
  refine ⟨rfl, ?_⟩
  intro out h
  simp [_get_sample] at h

/-- Claim C1: `set_annotations` never assigns the per-token argmax tag — the
comprehension indexes the 1-D argmax array with two subscripts
(`actions[j, i]`), raising IndexError on any document with at least one
token; and a zero-token document still raises NameError because
`spans_from_biluo_tags` is not defined in the module. -/
theorem set_annotations_crashes :
    set_annotations ["PERSON"] [1] [[[1, 0, 0, 0, 0]]]
      = .error "IndexError: too many indices for array"
    ∧ set_annotations ["PERSON"] [0] [[]]
      = .error "NameError: name spans_from_biluo_tags is not defined" :=
  ⟨rfl, rfl⟩

/-! ## Claim C2: tag names and the action count -/

/-- Indexing past a leading block of a concatenation. -/
theorem consume_block {α : Type} (A rest : List α) (i : Nat) :
    (A ++ rest)[A.length + i]? = rest[i]? := by
  rw [List.getElem?_append_right (Nat.le_add_right _ _)]
  congr 1
  omega

/-- Claim C2: `get_tag_names` is the concatenation of all `B-` tags, all
`I-` tags, all `L-` tags, all `U-` tags (each in label order) and the single
tag `"O"`; its length is the action count `4 * n + 1` returned by
`_set_labels`; and position `k * n + i` holds the tag of kind `k` for label
`i`, with `"O"` last. -/
theorem get_tag_names_action_ordering (labels : List String) (st : Option (List String)) :
    get_tag_names labels
        = (labels.map fun l => "B-" ++ l) ++ (labels.map fun l => "I-" ++ l)
          ++ (labels.map fun l => "L-" ++ l) ++ (labels.map fun l => "U-" ++ l) ++ ["O"]
    ∧ (get_tag_names labels).length = 4 * labels.length + 1
    ∧ (get_tag_names labels).length = (_set_labels st labels).2
    ∧ (get_tag_names labels)[4 * labels.length]? = some "O"
    ∧ ∀ i, i < labels.length →
        (get_tag_names labels)[i]? = (labels[i]?).map (fun l => "B-" ++ l)
        ∧ (get_tag_names labels)[labels.length + i]? = (labels[i]?).map (fun l => "I-" ++ l)
        ∧ (get_tag_names labels)[2 * labels.length + i]? = (labels[i]?).map (fun l => "L-" ++ l)
        ∧ (get_tag_names labels)[3 * labels.length + i]? = (labels[i]?).map (fun l => "U-" ++ l) := by
  have hre : get_tag_names labels
      = (labels.map fun l => "B-" ++ l) ++ ((labels.map fun l => "I-" ++ l)
        ++ ((labels.map fun l => "L-" ++ l) ++ ((labels.map fun l => "U-" ++ l) ++ ["O"]))) := by
    simp [get_tag_names, List.append_assoc]
  have hA : (labels.map fun l => "B-" ++ l).length = labels.length := List.length_map _ _
  have hB : (labels.map fun l => "I-" ++ l).length = labels.length := List.length_map _ _
  have hC : (labels.map fun l => "L-" ++ l).length = labels.length := List.length_map _ _
  have hD : (labels.map fun l => "U-" ++ l).length = labels.length := List.length_map _ _
  have hlen : (get_tag_names labels).length = 4 * labels.length + 1 := by
    simp [get_tag_names]
    omega
  refine ⟨rfl, hlen, ?_, ?_, ?_⟩
  · rw [hlen]
    simp [_set_labels]
    omega
  · have e1 : 4 * labels.length
        = (labels.map fun l => "B-" ++ l).length + ((labels.map fun l => "I-" ++ l).length
          + ((labels.map fun l => "L-" ++ l).length
            + ((labels.map fun l => "U-" ++ l).length + 0))) := by
      rw [hA, hB, hC, hD]; omega
    rw [hre, e1, consume_block, consume_block, consume_block, consume_block]
    rfl
  · intro i hi
    refine ⟨?_, ?_, ?_, ?_⟩
    · rw [hre, List.getElem?_append_left (by rw [hA]; exact hi), List.getElem?_map]
    · have e1 : labels.length + i = (labels.map fun l => "B-" ++ l).length + i := by rw [hA]
      rw [hre, e1, consume_block, List.getElem?_append_left (by rw [hB]; exact hi),
        List.getElem?_map]
    · have e1 : 2 * labels.length + i
          = (labels.map fun l => "B-" ++ l).length
            + ((labels.map fun l => "I-" ++ l).length + i) := by
        rw [hA, hB]; omega
      rw [hre, e1, consume_block, consume_block,
        List.getElem?_append_left (by rw [hC]; exact hi), List.getElem?_map]
    · have e1 : 3 * labels.length + i
          = (labels.map fun l => "B-" ++ l).length + ((labels.map fun l => "I-" ++ l).length
            + ((labels.map fun l => "L-" ++ l).length + i)) := by
        rw [hA, hB, hC]; omega
      rw [hre, e1, consume_block, consume_block, consume_block,
        List.getElem?_append_left (by rw [hD]; exact hi), List.getElem?_map]

/-- Claim C2, witness: the ordering facts evaluated for the single label
`"PER"`. -/
theorem get_tag_names_action_ordering_check :
    (get_tag_names ["PER"]).length = (_set_labels none ["PER"]).2
    ∧ (0 : Nat) < ["PER"].length
    ∧ (get_tag_names ["PER"])[0]? = ((["PER"][0]?).map fun l => "B-" ++ l) :=
  ⟨(get_tag_names_action_ordering ["PER"] none).2.2.1, by decide,
   ((get_tag_names_action_ordering ["PER"] none).2.2.2.2 0 (by decide)).1⟩

/-! ## Claims C5 and C6: the loss aggregation -/

/-- Unrolling the accumulation loop of `get_loss`: starting from `(a, ds)`,
the fold adds all scalar losses to `a` and appends all gradient matrices to
`ds` in order. -/
theorem loss_foldl_aux (lossFn : List (List ℝ) → List Nat → List (List ℝ) × ℝ)
    (l : List (List Nat × List (List ℝ))) (a : ℝ) (ds : List (List (List ℝ))) :
    l.foldl (fun acc p => let r := lossFn p.2 p.1; (acc.1 + r.2, acc.2 ++ [r.1])) (a, ds)
      = (a + (l.map fun p => (lossFn p.2 p.1).2).sum,
         ds ++ l.map fun p => (lossFn p.2 p.1).1) := by
  induction l generalizing a ds with
  | nil => simp
  | cons p l ih => simp [ih, add_assoc]

/-- Closed form of `get_loss`: the total is the sum of the per-document
losses over `zip(examples, scores)` and the gradients are collected in
order. -/
theorem get_loss_eq (lossFn : List (List ℝ) → List Nat → List (List ℝ) × ℝ)
    (gs : List (List Nat)) (ms : List (List (List ℝ))) :
    get_loss lossFn gs ms
      = (((gs.zip ms).map fun p => (lossFn p.2 p.1).2).sum,
         (gs.zip ms).map fun p => (lossFn p.2 p.1).1) := by
  simp [get_loss, loss_foldl_aux]

/-- `zip` only sees the common prefix of its two arguments. -/
theorem zip_take_take {α β : Type} (gs : List α) (ms : List β) :
    gs.zip ms = (gs.take ms.length).zip (ms.take gs.length) := by
  induction gs generalizing ms with
  | nil => simp
  | cons a as ih =>
    cases ms with
    | nil => simp
    | cons b bs => simp [ih bs]

/-- Claim C6, counterexample: one gold example against two score matrices is
processed without any error — `get_loss` returns exactly what it returns for
the one-matrix batch and produces a single gradient, silently ignoring the
second matrix. -/
theorem get_loss_mismatch_no_error :
    get_loss CategoricalCrossentropy [[0]] [[[1]], [[2]]]
        = get_loss CategoricalCrossentropy [[0]] [[[1]]]
    ∧ (get_loss CategoricalCrossentropy [[0]] [[[1]], [[2]]]).2.length = 1 :=
  ⟨rfl, rfl⟩

/-- Claim C6, amended: `get_loss` performs no length check; it iterates over
`zip(examples, scores)`, silently truncating both lists to the shorter
length, and returns normally with one gradient per processed pair. -/
theorem get_loss_truncates (lossFn : List (List ℝ) → List Nat → List (List ℝ) × ℝ)
    (gs : List (List Nat)) (ms : List (List (List ℝ))) :
    (get_loss lossFn gs ms).2.length = min gs.length ms.length
    ∧ get_loss lossFn gs ms = get_loss lossFn (gs.take ms.length) (ms.take gs.length) := by
  constructor
  · rw [get_loss_eq]
    simp [List.length_zip]
  · unfold get_loss
    rw [← zip_take_take]

/-- Rows of the modelled per-token gradient have the row's own width. -/
theorem ceGradRow_length (row : List ℝ) (k : Nat) :
    (ceGradRow row k).length = row.length := by
  simp [ceGradRow, softmaxRow]

/-- The modelled per-document gradient matrix has exactly the shape of the
score matrix when the gold tag sequence covers every token. -/
theorem grad_shape (scores : List (List ℝ)) (gold : List Nat)
    (h : gold.length = scores.length) :
    ((CategoricalCrossentropy scores gold).1).map List.length
      = scores.map List.length := by
  simp only [CategoricalCrossentropy]
  induction scores generalizing gold with
  | nil => simp
  | cons row rest ih =>
    cases gold with
    | nil => simp at h
    | cons k gold₀ =>
      simp only [List.zip_cons_cons, List.map_cons, ceGradRow_length]
      rw [ih gold₀ (by simpa using h)]

/-- Claim C5: on a batch with matching list lengths and per-document shapes,
`get_loss` returns the sum over documents of the per-token cross-entropy
(summed over tokens) between the softmax of the scores and the one-hot gold
targets, together with one gradient matrix per document of the same shape as
that document's score matrix. -/
theorem get_loss_sums_ce (gs : List (List Nat)) (ms : List (List (List ℝ)))
    (hlen : gs.length = ms.length)
    (hshape : ∀ p ∈ gs.zip ms, p.1.length = p.2.length) :
    (get_loss_ce gs ms).1
        = ((gs.zip ms).map fun p =>
            ((p.2.zip p.1).map fun q => ceTokenLoss q.1 q.2).sum).sum
    ∧ (get_loss_ce gs ms).2
        = (gs.zip ms).map (fun p => (CategoricalCrossentropy p.2 p.1).1)
    ∧ (get_loss_ce gs ms).2.length = ms.length
    ∧ ∀ p ∈ gs.zip ms,
        ((CategoricalCrossentropy p.2 p.1).1).map List.length = p.2.map List.length := by
  refine ⟨?_, ?_, ?_, ?_⟩
  · rw [get_loss_ce, get_loss_eq]
    simp [CategoricalCrossentropy]
  · rw [get_loss_ce, get_loss_eq]
  · rw [get_loss_ce, get_loss_eq]
    simp [List.length_zip, hlen]
  · intro p hp
    exact grad_shape p.2 p.1 (hshape p hp)

/-- Claim C5, witness: a one-document batch with one token satisfies the
hypotheses and gets one gradient matrix. -/
theorem get_loss_sums_ce_check :
    ([[0]] : List (List Nat)).length = ([[[(0 : ℝ)]]] : List (List (List ℝ))).length
    ∧ (∀ p ∈ ([[0]] : List (List Nat)).zip ([[[(0 : ℝ)]]] : List (List (List ℝ))),
        p.1.length = p.2.length)
    ∧ (get_loss_ce [[0]] [[[(0 : ℝ)]]]).2.length = ([[[(0 : ℝ)]]] : List (List (List ℝ))).length := by
  have h2 : ∀ p ∈ ([[0]] : List (List Nat)).zip ([[[(0 : ℝ)]]] : List (List (List ℝ))),
      p.1.length = p.2.length := by
    intro p hp
    obtain rfl := List.mem_singleton.mp hp
    rfl
  exact ⟨rfl, h2, (get_loss_sums_ce [[0]] [[[(0 : ℝ)]]] rfl h2).2.2.1⟩

/-! ## Claim C3: label discovery -/

/-- What `sorted(set(...))` guarantees: the result is sorted, duplicate-free
and has exactly the members of the collected list. -/
theorem pySorted_dedup_spec (l : List String) :
    (pySorted l.dedup).Sorted (fun a b => strLe a b = true)
    ∧ (pySorted l.dedup).Nodup
    ∧ ∀ x, x ∈ pySorted l.dedup ↔ x ∈ l := by
  have hperm : (pySorted l.dedup).Perm l.dedup := List.perm_insertionSort _ _
  refine ⟨?_, ?_, ?_⟩
  · exact @List.sorted_insertionSort String (fun a b => strLe a b = true) strLeDecidable
      ⟨strLe_total⟩ ⟨strLe_trans⟩ l.dedup
  · exact hperm.nodup_iff.mpr (List.nodup_dedup l)
  · intro x
    rw [hperm.mem_iff, List.mem_dedup]

/-- `sorted(set(...))` is canonical: two collections with the same members
produce the same sorted duplicate-free list. -/
theorem pySorted_dedup_eq (l1 l2 : List String)
    (h12 : ∀ x ∈ l1, x ∈ l2) (h21 : ∀ x ∈ l2, x ∈ l1) :
    pySorted l1.dedup = pySorted l2.dedup := by
  obtain ⟨s1, n1, m1⟩ := pySorted_dedup_spec l1
  obtain ⟨s2, n2, m2⟩ := pySorted_dedup_spec l2
  have hsub1 : pySorted l1.dedup ⊆ pySorted l2.dedup := fun x hx =>
    (m2 x).mpr (h12 x ((m1 x).mp hx))
  have hsub2 : pySorted l2.dedup ⊆ pySorted l1.dedup := fun x hx =>
    (m1 x).mpr (h21 x ((m2 x).mp hx))
  have hperm := (List.subperm_of_subset n1 hsub1).antisymm (List.subperm_of_subset n2 hsub2)
  exact @List.eq_of_perm_of_sorted String (fun a b => strLe a b = true)
    ⟨strLe_antisymm⟩ _ _ hperm s1 s2

/-- Claim C3: on any corpus whose relevant tags are well-formed (contain a
dash), `_get_labels` succeeds with the duplicate-free, lexicographically
sorted list of exactly the labels occurring in the corpus, and any corpus
with the same label set — whatever its iteration order — yields the very
same list. -/
theorem get_labels_sorted_canonical (c1 c2 : List (List String))
    (h1 : ∀ t ∈ relevantTags c1, hasDash t = true)
    (h2 : ∀ t ∈ relevantTags c2, hasDash t = true)
    (h12 : ∀ l ∈ labelsOf c1, l ∈ labelsOf c2)
    (h21 : ∀ l ∈ labelsOf c2, l ∈ labelsOf c1) :
    ∃ out, _get_labels c1 = .ok out ∧ _get_labels c2 = .ok out
      ∧ out.Sorted (fun a b => strLe a b = true)
      ∧ out.Nodup
      ∧ (∀ l, l ∈ out ↔ l ∈ labelsOf c1) := by
  have e1 : _get_labels c1 = .ok (pySorted (labelsOf c1).dedup) := by
    unfold _get_labels
    rw [if_pos (List.all_eq_true.mpr h1)]
  have e2 : _get_labels c2 = .ok (pySorted (labelsOf c2).dedup) := by
    unfold _get_labels
    rw [if_pos (List.all_eq_true.mpr h2)]
  obtain ⟨s1, n1, m1⟩ := pySorted_dedup_spec (labelsOf c1)
  refine ⟨pySorted (labelsOf c1).dedup, e1, ?_, s1, n1, m1⟩
  rw [e2, pySorted_dedup_eq (labelsOf c2) (labelsOf c1) h21 h12]

/-- Claim C3, witness: two corpora holding the labels `PER` and `LOC` in
different order and with different tags produce the same sorted registry. -/
theorem get_labels_sorted_canonical_check :
    (∀ t ∈ relevantTags [["B-PER", "O", "U-LOC"]], hasDash t = true)
    ∧ (∀ t ∈ relevantTags [["L-LOC"], ["B-PER", "-"]], hasDash t = true)
    ∧ (∀ l ∈ labelsOf [["B-PER", "O", "U-LOC"]], l ∈ labelsOf [["L-LOC"], ["B-PER", "-"]])
    ∧ (∀ l ∈ labelsOf [["L-LOC"], ["B-PER", "-"]], l ∈ labelsOf [["B-PER", "O", "U-LOC"]])
    ∧ ∃ out, _get_labels [["B-PER", "O", "U-LOC"]] = .ok out
        ∧ _get_labels [["L-LOC"], ["B-PER", "-"]] = .ok out
        ∧ out.Sorted (fun a b => strLe a b = true)
        ∧ out.Nodup
        ∧ (∀ l, l ∈ out ↔ l ∈ labelsOf [["B-PER", "O", "U-LOC"]]) :=
  ⟨by decide, by decide, by decide, by decide,
   get_labels_sorted_canonical _ _ (by decide) (by decide) (by decide) (by decide)⟩

/-! ## Claim C8: the encode/decode round trip -/

/-- Leading `O` tags advance the scan position and leave no open span. -/
theorem decodeLoop_replicate_O (k : Nat) : ∀ (pos : Nat) (rest : List BiluoTag),
    decodeLoop pos none (List.replicate k .O ++ rest) = decodeLoop (pos + k) none rest := by
  induction k with
  | zero => intro pos rest; simp
  | succ k ih =>
    intro pos rest
    rw [List.replicate_succ, List.cons_append]
    calc decodeLoop pos none (BiluoTag.O :: (List.replicate k BiluoTag.O ++ rest))
        = decodeLoop (pos + 1) none (List.replicate k BiluoTag.O ++ rest) := rfl
      _ = decodeLoop (pos + 1 + k) none rest := ih (pos + 1) rest
      _ = decodeLoop (pos + (k + 1)) none rest := by congr 1; omega

/-- A run of matching `I` tags followed by the matching `L` closes the open
span exactly at the `L` position. -/
theorem decodeLoop_I_run (lab : String) (k : Nat) : ∀ (pos st : Nat) (rest : List BiluoTag),
    decodeLoop pos (some (st, lab)) (List.replicate k (.I lab) ++ .L lab :: rest)
      = ⟨st, pos + k + 1, lab⟩ :: decodeLoop (pos + k + 1) none rest := by
  induction k with
  | zero =>
    intro pos st rest
    rw [List.replicate_zero, List.nil_append]
    simp [decodeLoop]
  | succ k ih =>
    intro pos st rest
    rw [List.replicate_succ, List.cons_append]
    have step : decodeLoop pos (some (st, lab))
        (.I lab :: (List.replicate k (.I lab) ++ .L lab :: rest))
        = decodeLoop (pos + 1) (some (st, lab)) (List.replicate k (.I lab) ++ .L lab :: rest) := by
      simp [decodeLoop]
    rw [step, ih (pos + 1) st rest]
    have e : pos + 1 + k + 1 = pos + (k + 1) + 1 := by omega
    rw [e]

/-- Decoding a span's own tags starting at the span's start emits exactly
that span and resumes at its end. -/
theorem decodeLoop_spanTags (s : Span) (h : s.first < s.stop) (rest : List BiluoTag) :
    decodeLoop s.first none (spanTags s ++ rest) = s :: decodeLoop s.stop none rest := by
  obtain ⟨pos, stp, lab⟩ := s
  dsimp only at h ⊢
  by_cases hu : stp = pos + 1
  · subst hu
    simp [spanTags, decodeLoop]
  · simp only [spanTags]
    rw [if_neg hu, List.cons_append, List.append_assoc, List.singleton_append]
    have step : decodeLoop pos none
        (BiluoTag.B lab :: (List.replicate (stp - pos - 2) (.I lab) ++ .L lab :: rest))
        = decodeLoop (pos + 1) (some (pos, lab))
            (List.replicate (stp - pos - 2) (.I lab) ++ .L lab :: rest) := rfl
    rw [step, decodeLoop_I_run lab (stp - pos - 2) (pos + 1) pos rest]
    have e : pos + 1 + (stp - pos - 2) + 1 = stp := by omega
    rw [e]

/-- Decoding inverts encoding along a chain of in-order, non-touching,
non-degenerate spans. -/
theorem decode_encodeFrom (spans : List Span) : ∀ pos n, ChainOK pos spans →
    decodeLoop pos none (encodeFrom pos n spans) = spans := by
  induction spans with
  | nil =>
    intro pos n _
    simp only [encodeFrom]
    have h := decodeLoop_replicate_O (n - pos) pos []
    simpa [decodeLoop] using h
  | cons s rest ih =>
    intro pos n hch
    obtain ⟨hpos, hv, hch'⟩ := hch
    simp only [encodeFrom]
    rw [List.append_assoc, decodeLoop_replicate_O]
    have e : pos + (s.first - pos) = s.first := by omega
    rw [e, decodeLoop_spanTags s hv, ih s.stop n hch']

/-- A start-sorted, pairwise-disjoint list of non-degenerate spans whose
starts lie at or after `pos` forms a chain. -/
theorem chainOK_of_sorted_disjoint (spans : List Span) : ∀ pos,
    List.Pairwise (fun a b : Span => a.first ≤ b.first) spans →
    List.Pairwise spanDisjoint spans →
    (∀ s ∈ spans, s.first < s.stop) →
    (∀ s ∈ spans, pos ≤ s.first) →
    ChainOK pos spans := by
  induction spans with
  | nil => intro pos _ _ _ _; trivial
  | cons s rest ih =>
    intro pos hsort hdisj hval hpos
    rw [List.pairwise_cons] at hsort hdisj
    show pos ≤ s.first ∧ s.first < s.stop ∧ ChainOK s.stop rest
    refine ⟨hpos s (List.mem_cons_self _ _), hval s (List.mem_cons_self _ _), ?_⟩
    apply ih s.stop hsort.2 hdisj.2 (fun r hr => hval r (List.mem_cons_of_mem _ hr))
    intro r hr
    rcases hdisj.1 r hr with hle | hle
    · exact hle
    · have h1 := hsort.1 r hr
      have h2 := hval r (List.mem_cons_of_mem _ hr)
      omega

/-- Claim C8: for every document and every set of non-overlapping, in-range
entity spans with registered labels, encoding succeeds and decoding the
resulting BILOU tag sequence yields exactly the original span set
(a permutation of it, hence equal as a set). -/
theorem encode_decode_roundtrip (n : Nat) (registry : List String) (spans : List Span)
    (hval : ∀ s ∈ spans, s.first < s.stop ∧ s.stop ≤ n ∧ s.label ∈ registry)
    (hdisj : spans.Pairwise spanDisjoint) :
    ∃ tags, encode n registry spans = some tags
      ∧ (decode tags).Perm spans
      ∧ ∀ s, s ∈ decode tags ↔ s ∈ spans := by
  have henc : encode n registry spans = some (encodeFrom 0 n (sortSpans spans)) := by
    unfold encode
    rw [if_pos ⟨hval, hdisj⟩]
  have hperm : (sortSpans spans).Perm spans := List.perm_insertionSort _ _
  have hsorted : List.Pairwise (fun a b : Span => a.first ≤ b.first) (sortSpans spans) :=
    @List.sorted_insertionSort Span (fun a b => a.first ≤ b.first) inferInstance
      ⟨fun a b => Nat.le_total _ _⟩ ⟨fun a b c h1 h2 => Nat.le_trans h1 h2⟩ spans
  have hdisj' : (sortSpans spans).Pairwise spanDisjoint :=
    (List.Perm.pairwise_iff (fun h => Or.symm h) hperm).mpr hdisj
  have hch : ChainOK 0 (sortSpans spans) :=
    chainOK_of_sorted_disjoint (sortSpans spans) 0 hsorted hdisj'
      (fun s hs => (hval s (hperm.subset hs)).1)
      (fun s _ => Nat.zero_le _)
  have hdec : decode (encodeFrom 0 n (sortSpans spans)) = sortSpans spans :=
    decode_encodeFrom (sortSpans spans) 0 n hch
  refine ⟨encodeFrom 0 n (sortSpans spans), henc, ?_, ?_⟩
  · rw [hdec]
    exact hperm
  · intro s
    rw [hdec]
    exact hperm.mem_iff

/-- Claim C8, witness: the spec's example scenario — five tokens, spans
`(0,2,PERSON)` and `(3,4,GPE)` — encodes and decodes back to itself. -/
theorem encode_decode_roundtrip_check :
    (∀ s ∈ [Span.mk 0 2 "PERSON", Span.mk 3 4 "GPE"],
        s.first < s.stop ∧ s.stop ≤ 5 ∧ s.label ∈ ["GPE", "PERSON"])
    ∧ List.Pairwise spanDisjoint [Span.mk 0 2 "PERSON", Span.mk 3 4 "GPE"]
    ∧ ∃ tags, encode 5 ["GPE", "PERSON"] [Span.mk 0 2 "PERSON", Span.mk 3 4 "GPE"] = some tags
        ∧ (decode tags).Perm [Span.mk 0 2 "PERSON", Span.mk 3 4 "GPE"]
        ∧ ∀ s, s ∈ decode tags ↔ s ∈ [Span.mk 0 2 "PERSON", Span.mk 3 4 "GPE"] :=
  ⟨by decide, by decide,
   encode_decode_roundtrip 5 ["GPE", "PERSON"] [Span.mk 0 2 "PERSON", Span.mk 3 4 "GPE"]
     (by decide) (by decide)⟩
